import Mathlib

/-!
# Verification of ObexDownloader

A shallow embedding, in Lean 4, of the core pipeline of the ObexDownloader
repository (`downloadobex.py`, with `obexlistparser.py` as an earlier revision
of the same program).  Pure Python functions become Lean functions; the
streaming `html.parser.HTMLParser` subclasses become explicit state machines
over a tokenized event stream; filesystem and network effects become explicit
state passing (`List String` of file paths, `Except` for raised exceptions).

Conventions used throughout:

* An HTML document, after tokenization by `html.parser` (which lowercases tag
  names, decodes character references inside text via `convert_charrefs=True`,
  and dispatches to `handle_starttag` / `handle_endtag` / `handle_data`), is a
  `List HtmlEvent`.
* `unescape` from `html.parser` (entity decoding of attribute values) is kept
  abstract: every definition that uses it takes it as a parameter
  `u : String → String`.
* A raised Python exception is `Except.error msg`.
* The filesystem is a duplicate-free `List String` of file paths, with `/` as
  the separator, exactly as produced by `os.path.join`.
* Network I/O (`urllib.request.urlopen`) is a parameter: for metadata fetches
  a function `String → Except String (List HtmlEvent)` returning the tokenized
  body of the detail page, for artifact downloads a function
  `String → Except String Unit` (the body content itself is irrelevant to the
  claims; only success/failure and the created file path matter).
-/

/-! ### Python string primitives

The Python string operations used by the source are re-implemented over
`List Char` (the `data` of a `String`) with plain structural recursion.  For
the ASCII inputs this program handles, `Char.isWhitespace` (space, tab, CR,
LF) coincides with Python's whitespace classes. -/

/-- Drop leading whitespace characters. -/
def dropLeadingWs : List Char → List Char
  | [] => []
  | c :: cs => if c.isWhitespace then dropLeadingWs cs else c :: cs

/-- Python `str.strip()`: remove leading and trailing whitespace. -/
def pyStrip (s : String) : String :=
  String.mk ((dropLeadingWs (dropLeadingWs s.data).reverse).reverse)

/-- Python `str.split()` with no separator: split on whitespace runs, dropping
empty fields.  `acc` holds the (reversed) characters of the word being built. -/
def splitWsAux : List Char → List Char → List (List Char)
  | [], acc => if acc.isEmpty then [] else [acc.reverse]
  | c :: cs, acc =>
    if c.isWhitespace then
      if acc.isEmpty then splitWsAux cs [] else acc.reverse :: splitWsAux cs []
    else splitWsAux cs (c :: acc)

/-- Join a list of words with single spaces (`' '.join(words)`). -/
def joinSpaces : List (List Char) → List Char
  | [] => []
  | [w] => w
  | w :: ws => w ++ ' ' :: joinSpaces ws

/-- Embeds `' '.join(data.strip().split())` — Python's whitespace-run collapsing.
`str.split()` already ignores leading and trailing whitespace, so the
expression collapses internal whitespace runs to single spaces and trims the
ends. -/
def collapseWs (s : String) : String :=
  String.mk (joinSpaces (splitWsAux s.data []))

/-- Python `str.lower()` (ASCII case folding suffices here). -/
def strToLower (s : String) : String :=
  String.mk (s.data.map Char.toLower)

/-- Python `str.endswith(pat)`. -/
def strEndsWith (s pat : String) : Bool :=
  pat.data.isSuffixOf s.data

/-- Python `str.startswith(pat)` / prefix test on paths. -/
def strStartsWith (s pat : String) : Bool :=
  pat.data.isPrefixOf s.data

/-- Python `title.replace('/', '_')`: since both pattern and replacement are
single characters, this is a character-wise map. -/
def replaceSlash (s : String) : String :=
  String.mk (s.data.map (fun c => if c = '/' then '_' else c))

/-- Embeds `dict(attrs)[key]` as an `Option`: Python's `dict` keeps the *last*
occurrence of a duplicated key, hence the `reverse` before the first-match
lookup. -/
def attrDict (attrs : List (String × String)) (key : String) : Option String :=
  (attrs.reverse).lookup key

/-- One parse event dispatched by `html.parser.HTMLParser`. -/
inductive HtmlEvent where
  | startTag (tag : String) (attrs : List (String × String))
  | endTag (tag : String)
  | text (data : String)
deriving Repr, DecidableEq

/-! ## `ObexListParser` (downloadobex.py lines 22–79)

The listing-table extractor.  `_inLink` and `_skip` are initialized by
`__init__` but never read nor written afterwards; they are carried as dead
fields for fidelity.  The optional CSV sink (`self._output`) is modelled as
`Option String`: `none` when no sink was supplied, `some acc` for the text
accumulated so far when one was. -/

def LINK_HEADER : String := "Link"

structure ListParserState where
  inHeader : Bool
  inCell : Bool
  inLink : Bool
  table : List (List String)
  currentRow : Option (List String)
  skip : Bool
  output : Option String
deriving Repr, DecidableEq

def initListState (withSink : Bool) : ListParserState :=
  ⟨false, false, false, [], none, true, if withSink then some "" else none⟩

/-- Embeds `self._write_to_output(content)`: appends to the sink iff one is present. -/
def writeOut (st : ListParserState) (content : String) : ListParserState :=
  match st.output with
  | none => st
  | some acc => { st with output := some (acc ++ content) }

/-- Embeds `ObexListParser.handle_starttag`. An anchor with no `href` attribute would
raise `KeyError`; an anchor/data hit before any `<tr>` would call `append` on
`None` and raise `AttributeError`. -/
def listStart (u : String → String) (st : ListParserState) (tag : String)
    (attrs : List (String × String)) : Except String ListParserState :=
  let st1 :=
    if tag == "th" then { st with inHeader := true, inCell := true }
    else if tag == "td" then { st with inCell := true }
    else st
  if tag == "tr" then
    .ok { st1 with currentRow := some (if st1.table.isEmpty then [LINK_HEADER] else []) }
  else if tag == "a" && st1.inCell && !st1.inHeader then
    match attrDict attrs "href" with
    | none => .error "KeyError: href"
    | some href =>
      let url := u href
      match st1.currentRow with
      | none => .error "AttributeError: NoneType has no attribute append"
      | some row =>
        .ok { writeOut st1 ("\"" ++ url ++ "\",") with currentRow := some (row ++ [url]) }
  else .ok st1

/-- Embeds `ObexListParser.handle_data`. -/
def listData (st : ListParserState) (data : String) : Except String ListParserState :=
  if st.inCell then
    let content := collapseWs data
    if content == "" then .ok st
    else
      match st.currentRow with
      | none => .error "AttributeError: NoneType has no attribute append"
      | some row =>
        .ok { writeOut st ("\"" ++ content ++ "\"") with currentRow := some (row ++ [content]) }
  else .ok st

/-- Embeds `ObexListParser.handle_endtag`.  Note the Python truthiness test
`if self._currentRow:`: a `None` row and an *empty* row are both skipped, and
only a non-empty row is appended to the table.  Also note that `</th>` resets
`_inHeader` but not `_inCell` (only `</td>` resets `_inCell`). -/
def listEnd (st : ListParserState) (tag : String) : ListParserState :=
  if tag == "tr" then
    let st1 := writeOut st "\n"
    match st1.currentRow with
    | some row =>
      if row.isEmpty then st1
      else { st1 with table := st1.table ++ [row], currentRow := none }
    | none => st1
  else if tag == "td" then { writeOut st "," with inCell := false }
  else if tag == "th" then { st with inHeader := false }
  else st

def listStep (u : String → String) (st : ListParserState) :
    HtmlEvent → Except String ListParserState
  | .startTag tag attrs => listStart u st tag attrs
  | .endTag tag => .ok (listEnd st tag)
  | .text data => listData st data

def listRun (u : String → String) :
    ListParserState → List HtmlEvent → Except String ListParserState
  | st, [] => .ok st
  | st, e :: es =>
    match listStep u st e with
    | .ok st' => listRun u st' es
    | .error msg => .error msg

/-- Embeds `ObexListParser.feed` (plus `parse_obex_listing`'s choice of sink): writes
the synthetic `"Link",` CSV header, consumes the event stream, and returns the
table (paired here with the final sink content). -/
def listFeed (u : String → String) (withSink : Bool) (events : List HtmlEvent) :
    Except String (List (List String) × Option String) :=
  let st0 := writeOut (initListState withSink) ("\"" ++ LINK_HEADER ++ "\",")
  (listRun u st0 events).map (fun st => (st.table, st.output))

/-! ## `ObexObjectParser` (downloadobex.py lines 82–115)

The attachment-link extractor for one project detail page. -/

structure ObjParserState where
  getReady : Bool
  wereAlmostThere : Bool
  weMadeIt : Bool
  links : List (List String)
deriving Repr, DecidableEq

def initObjState : ObjParserState := ⟨false, false, false, []⟩

/-- Embeds `self._links[-1].append(x)`: mutate the last candidate in place;
`IndexError` on an empty list. -/
def appendToLast (links : List (List String)) (x : String) :
    Except String (List (List String)) :=
  match links with
  | [] => .error "IndexError: list index out of range"
  | _ => .ok (links.dropLast ++ [links.getLastD [] ++ [x]])

/-- Embeds `ObexObjectParser.handle_starttag`: a `<th>` arms `_getReady`; an anchor
seen while `_wereAlmostThere` starts a new candidate `[unescape(href)]`.
No origin prefix is applied to the href here (downloadobex.py line 112). -/
def objStart (u : String → String) (st : ObjParserState) (tag : String)
    (attrs : List (String × String)) : Except String ObjParserState :=
  if tag == "th" then .ok { st with getReady := true }
  else if tag == "a" && st.wereAlmostThere then
    match attrDict attrs "href" with
    | none => .error "KeyError: href"
    | some href => .ok { st with weMadeIt := true, links := st.links ++ [[u href]] }
  else .ok st

/-- Embeds `ObexObjectParser.handle_data`: the literal text `Attachment` (stripped)
arms `_wereAlmostThere` once `_getReady` holds; while `_weMadeIt` holds, every
text node is whitespace-collapsed and appended to the last candidate — with no
emptiness check, so whitespace-only text appends an empty string. -/
def objData (st : ObjParserState) (data : String) : Except String ObjParserState :=
  let stripped := pyStrip data
  let st1 := if st.getReady && stripped == "Attachment"
             then { st with wereAlmostThere := true } else st
  if st1.weMadeIt then
    match appendToLast st1.links (collapseWs stripped) with
    | .ok links' => .ok { st1 with links := links' }
    | .error e => .error e
  else .ok st1

/-- Embeds `ObexObjectParser.handle_endtag`: closing the captured anchor clears both
flags. -/
def objEnd (st : ObjParserState) (tag : String) : ObjParserState :=
  if st.weMadeIt && tag == "a" then { st with weMadeIt := false, wereAlmostThere := false }
  else st

def objStep (u : String → String) (st : ObjParserState) :
    HtmlEvent → Except String ObjParserState
  | .startTag tag attrs => objStart u st tag attrs
  | .endTag tag => .ok (objEnd st tag)
  | .text data => objData st data

def objRun (u : String → String) :
    ObjParserState → List HtmlEvent → Except String ObjParserState
  | st, [] => .ok st
  | st, e :: es =>
    match objStep u st e with
    | .ok st' => objRun u st' es
    | .error msg => .error msg

/-- Embeds `ObexObjectParser.feed`: consume the stream, return `self._links`. -/
def objFeed (u : String → String) (events : List HtmlEvent) :
    Except String (List (List String)) :=
  (objRun u initObjState events).map (fun st => st.links)

/-! ## Catalog fetcher (`download_all_metadata`, downloadobex.py lines 155–174)

The `ThreadPoolExecutor` is modelled sequentially: the submission loop first
extracts `(link, project_title)` from every dispatched row (raising
`IndexError` where Python would), then the barrier
`[future.result() for future in futures]` runs each task in submission order
and re-raises the first task exception — there is no `try`/`except` anywhere
on this path. -/

/-- Python `list.index(x)`: first index of `x`, `ValueError` if absent. -/
def pyIndex (l : List String) (x : String) : Except String Nat :=
  match l.findIdx? (fun y => y == x) with
  | some i => .ok i
  | none => .error ("ValueError: " ++ x ++ " is not in list")

/-- Python `row[i]`: `IndexError` when out of range. -/
def rowGet (row : List String) (i : Nat) : Except String String :=
  match row.get? i with
  | some v => .ok v
  | none => .error "IndexError: list index out of range"

/-- The submission loop `for row in table[1:-1]: ... executor.submit(...)`:
one `(link, project_title)` task per dispatched row. -/
def submitTasks (li ti : Nat) : List (List String) → Except String (List (String × String))
  | [] => .ok []
  | row :: rows =>
    match rowGet row li with
    | .error e => .error e
    | .ok link =>
      match rowGet row ti with
      | .error e => .error e
      | .ok title =>
        match submitTasks li ti rows with
        | .error e => .error e
        | .ok rest => .ok ((link, title) :: rest)

/-- Embeds `download_obex_object_metadata` (downloadobex.py lines 168–174): prefix the
catalog origin onto the listing's relative detail-page link, fetch and tokenize
the page, and run `ObexObjectParser` over it. -/
def download_obex_object_metadata (fetch : String → Except String (List HtmlEvent))
    (u : String → String) (link title : String) :
    Except String (String × List (List String)) :=
  match fetch ("http://obex.parallax.com" ++ link) with
  | .error e => .error e
  | .ok events =>
    match objFeed u events with
    | .error e => .error e
    | .ok links => .ok (title, links)

/-- The barrier `[future.result() for future in futures]`: collect each task's
result in order, re-raising the first task exception. -/
def runTasks (fetch : String → Except String (List HtmlEvent)) (u : String → String) :
    List (String × String) → Except String (List (String × List (List String)))
  | [] => .ok []
  | (link, title) :: rest =>
    match download_obex_object_metadata fetch u link title with
    | .error e => .error e
    | .ok r =>
      match runTasks fetch u rest with
      | .error e => .error e
      | .ok others => .ok (r :: others)

/-- Embeds `download_all_metadata` (downloadobex.py lines 155–165).  `table[0]` on an
empty table raises `IndexError`; the two `.index` calls raise `ValueError` on a
missing column; tasks are dispatched for `table[1:-1]` only; the association
list returned corresponds to `dict(results)`. -/
def download_all_metadata (fetch : String → Except String (List HtmlEvent))
    (u : String → String) (table : List (List String)) :
    Except String (List (String × List (List String))) :=
  match table with
  | [] => .error "IndexError: list index out of range"
  | header :: rest =>
    match pyIndex header LINK_HEADER with
    | .error e => .error e
    | .ok li =>
      match pyIndex header "Project Title" with
      | .error e => .error e
      | .ok ti =>
        match submitTasks li ti rest.dropLast with
        | .error e => .error e
        | .ok tasks => runTasks fetch u tasks

/-! ## Filesystem and archive model

The on-disk state is a duplicate-free `List String` of file paths.  Directories
are not tracked (only `find_zips` and file creation matter to the claims). -/

/-- Embeds `f.lower().endswith('.zip')` (downloadobex.py line 217).  Python applies it
to the bare filename; since `".zip"` contains no `/`, testing the full path is
equivalent. -/
def isZip (p : String) : Bool :=
  strEndsWith (strToLower p) ".zip"

/-- Embeds `os.path.dirname`: everything before the final `/` (for the
single-component relative case, the empty string; paths in this model are
relative, so the absolute-root corner case of `os.path.dirname` never
arises). -/
def dirname (p : String) : String :=
  String.mk (((p.data.reverse.dropWhile (fun c => c ≠ '/')).drop 1).reverse)

/-- Membership of path `p` in the subtree rooted at `directory`, as enumerated
by `os.walk(directory)`. -/
def underDir (directory p : String) : Bool :=
  strStartsWith p (directory ++ "/")

/-- Embeds `find_zips` (downloadobex.py lines 213–219): every file under `directory`
whose (lowercased) name ends in `.zip`, in on-disk order. -/
def find_zips (fs : List String) (directory : String) : List String :=
  fs.filter (fun p => underDir directory p && isZip p)

/-- Create a file (idempotent: `zipfile.extractall` and `open(..., 'wb')`
silently overwrite an existing file). -/
def addFile (fs : List String) (p : String) : List String :=
  if p ∈ fs then fs else fs ++ [p]

/-- The zip archives' contents: `contents z = some members` gives the member
file names a readable archive at path `z` extracts, `none` marks a corrupt
archive (`zipfile.BadZipFile`). -/
structure ZipEnv where
  contents : String → Option (List String)

/-- Embeds `extract` (downloadobex.py lines 222–227): extract all members of the
archive at `file_path` into `directory`; a `BadZipFile` is re-raised as
`Exception('Failed to extract ' + file_path, e)`. -/
def extract (env : ZipEnv) (fs : List String) (filePath directory : String) :
    Except String (List String) :=
  match env.contents filePath with
  | none => .error ("Failed to extract " ++ filePath)
  | some members =>
    .ok (members.foldl (fun acc m => addFile acc (directory ++ "/" ++ m)) fs)

/-- One round of `for z in zips: extract(z, os.path.dirname(z))`: every path in
`zs` is handed to `extract` in order; the first extraction error stops the
round (the exception propagates), keeping the filesystem mutations made so
far.  Returns the filesystem, the list of paths handed to `extract`, and the
error if one was raised. -/
def extractRound (env : ZipEnv) : List String → List String →
    List String × List String × Option String
  | fs, [] => (fs, [], none)
  | fs, z :: zs =>
    match extract env fs z (dirname z) with
    | .error e => (fs, [z], some e)
    | .ok fs' =>
      match extractRound env fs' zs with
      | (fs'', calls, err) => (fs'', z :: calls, err)

/-- Embeds `set(zips) - set(extracted_zips)` as the list of scan entries not yet
recorded as extracted; the Python `while` tests its truthiness (non-empty). -/
def listDiff (zips extracted : List String) : List String :=
  zips.filter (fun z => !(extracted.contains z))

/-- Result of the archive-resolution loop: the final filesystem, the number of
completed expansion rounds, every path handed to `extract` in order, the
propagated extraction error if any, and a fuel-exhaustion marker (a model
artifact only — the theorems show it stays `false` under the termination
hypotheses). -/
structure LoopOut where
  fs : List String
  rounds : Nat
  calls : List String
  err : Option String
  fuelOut : Bool
deriving Repr, DecidableEq

/-- The archive-resolution loop (downloadobex.py lines 202–208):

```
while set(zips) - set(extracted_zips):
    for z in zips:
        extract(z, os.path.dirname(z))
    extracted_zips += zips
    zips = find_zips(directory)
```

Note that the `for` iterates over the *whole* current scan list `zips`, not
over the set difference; the difference only decides whether another round
runs. -/
def zipLoop (env : ZipEnv) (directory : String) :
    Nat → List String → List String → List String → LoopOut
  | 0, fs, zips, extracted =>
    if listDiff zips extracted = [] then ⟨fs, 0, [], none, false⟩
    else ⟨fs, 0, [], none, true⟩
  | fuel + 1, fs, zips, extracted =>
    if listDiff zips extracted = [] then ⟨fs, 0, [], none, false⟩
    else
      match extractRound env fs zips with
      | (fs', calls, some e) => ⟨fs', 0, calls, some e, false⟩
      | (fs', calls, none) =>
        let out := zipLoop env directory fuel fs' (find_zips fs' directory) (extracted ++ zips)
        ⟨out.fs, out.rounds + 1, calls ++ out.calls, out.err, out.fuelOut⟩

/-! ## Mirror writer (`download_all_objects` / `download_object`,
downloadobex.py lines 177–210) -/

/-- The effect environment for downloads: `fetch url` models
`urllib.request.urlopen(url)` + `response.read()` (only success/failure
matters), `zip` the archives on disk. -/
structure DlEnv where
  fetch : String → Except String Unit
  zip : ZipEnv

/-- The `try` body for one artifact (downloadobex.py lines 196–208):
`open(output_path, 'wb')` creates the file *before* `urlopen` runs, so the
file exists (empty) even when the download fails; after a successful download
the archive-resolution loop runs on the whole project directory.  Returns the
new filesystem and the exception caught by the handler, if any. -/
def artifactBody (env : DlEnv) (fuel : Nat) (directory : String) (fs : List String)
    (url name : String) : List String × Option String :=
  let fs1 := addFile fs (directory ++ "/" ++ name)
  match env.fetch url with
  | .error e => (fs1, some e)
  | .ok _ =>
    match zipLoop env.zip directory fuel fs1 (find_zips fs1 directory) [] with
    | out => (out.fs, if out.fuelOut then some "model: fuel exhausted" else out.err)

/-- Embeds `download_object` (downloadobex.py lines 189–210): `for url, name in
artifacts` destructures each artifact *outside* the `try`, so a non-pair
artifact raises `ValueError` out of the whole function; inside the loop, any
exception is caught and printed as
`'Failed to download from {url}! Sorry about that :( -- {e}'` and the loop
continues.  Returns the final filesystem and the printed failure lines. -/
def download_object (env : DlEnv) (fuel : Nat) (directory : String) :
    List String → List (List String) → Except String (List String × List String)
  | fs, [] => .ok (fs, [])
  | fs, artifact :: rest =>
    match artifact with
    | [url, name] =>
      match artifactBody env fuel directory fs url name with
      | (fs', err?) =>
        let entry : List String :=
          match err? with
          | some e => ["Failed to download from " ++ url ++ "! Sorry about that :( -- " ++ e]
          | none => []
        match download_object env fuel directory fs' rest with
        | .ok (fsr, log) => .ok (fsr, entry ++ log)
        | .error e => .error e
    | other =>
      .error (if other.length < 2 then "ValueError: not enough values to unpack"
              else "ValueError: too many values to unpack")

/-- Embeds `download_all_objects` (downloadobex.py lines 177–186): refuse an existing
output directory (`os.makedirs(obex_dir, exist_ok=False)`), create one
directory per project (`title.replace('/', '_')`; a repeated directory name
raises `FileExistsError` from the second `os.makedirs`), run each project's
task, and re-raise the first task exception at the
`[future.result() for future in futures]` barrier.  Projects own disjoint
directories, so running the pool sequentially is faithful. -/
def download_all_objects_go (env : DlEnv) (fuel : Nat) (obexDir : String) :
    List (String × List (List String)) → List String → List String → List String →
    Except String (List String × List String)
  | [], _, fs, log => .ok (fs, log)
  | (title, artifacts) :: rest, dirs, fs, log =>
    let pdir := obexDir ++ "/" ++ replaceSlash title
    if pdir ∈ dirs then .error "FileExistsError"
    else
      match download_object env fuel pdir fs artifacts with
      | .error e => .error e
      | .ok (fs', plog) => download_all_objects_go env fuel obexDir rest (pdir :: dirs) fs' (log ++ plog)

def download_all_objects (env : DlEnv) (fuel : Nat)
    (metadata : List (String × List (List String))) (obexDir : String)
    (dirExists : Bool) : Except String (List String × List String) :=
  if dirExists then .error "FileExistsError"
  else download_all_objects_go env fuel obexDir metadata [] [] []

/-! ## Concrete scenarios used by the claim theorems -/

/-- A project directory `p` holding `a.zip`, which contains `b.zip`, which
contains only `inner.txt`; every other path is not a readable archive. -/
def nestedZipEnv : ZipEnv :=
  ⟨fun p => if p == "p/a.zip" then some ["b.zip"]
            else if p == "p/b.zip" then some ["inner.txt"]
            else none⟩

/-- The directory `p` just after `a.zip` was downloaded. -/
def nestedFs : List String := ["p/a.zip"]

/-- A directory containing no zip file at all. -/
def plainFs : List String := ["p/readme.txt"]

/-- A parsed listing table: header, three project rows, and the trailing
sentinel row that `table[1:-1]` drops. -/
def exListingTable : List (List String) :=
  [["Link", "Project Title"], ["/p1", "P1"], ["/p2", "P2"], ["/p3", "P3"],
   ["/end", "End"]]

/-- A detail-page fetch that raises an HTTP error for project `P2` only and
returns an (empty) page for everyone else. -/
def exFailFetch : String → Except String (List HtmlEvent) :=
  fun url => if url == "http://obex.parallax.com/p2"
             then .error "HTTP Error 404: Not Found" else .ok []

/-- An artifact-download environment where only the URL `u2` fails; no
downloaded file is an archive. -/
def bestEffortEnv : DlEnv :=
  ⟨fun url => if url == "u2" then .error "HTTP Error 500: Internal Server Error"
              else .ok (), ⟨fun _ => none⟩⟩

/-- Every download succeeds, but every archive on disk is corrupt
(`zipfile.BadZipFile` on open). -/
def corruptZipEnv : DlEnv := ⟨fun _ => .ok (), ⟨fun _ => none⟩⟩

/-! ## Auxiliary definitions for the theorems -/

/-- Forget the CSV sink of a parser state (used to compare a run with a sink
against a run without one). -/
def stripOut (st : ListParserState) : ListParserState := { st with output := none }

/-- The token events of one well-formed header cell `<th>…</th>`: a single
non-empty text node, optionally wrapped in an anchor. -/
def headerCellEvents : Option String × String → List HtmlEvent
  | (none, t) => [.startTag "th" [], .text t, .endTag "th"]
  | (some h, t) =>
    [.startTag "th" [], .startTag "a" [("href", h)], .text t, .endTag "a", .endTag "th"]

/-- The token events of a well-formed listing header row
`<tr><th>…</th>…</tr>`. -/
def headerRowEvents (cells : List (Option String × String)) : List HtmlEvent :=
  [HtmlEvent.startTag "tr" []] ++ (cells.map headerCellEvents).flatten
    ++ [HtmlEvent.endTag "tr"]

/-! ## Helper lemmas -/

/-- If some dispatched task fails, the barrier `[future.result() ...]`
re-raises: `runTasks` returns an error. -/
theorem runTasks_error (fetch : String → Except String (List HtmlEvent))
    (u : String → String) :
    ∀ tasks : List (String × String),
      (∃ t ∈ tasks, ∃ e, download_obex_object_metadata fetch u t.1 t.2 = .error e) →
      ∃ e', runTasks fetch u tasks = .error e'
  | [], h => absurd h (by simp)
  | (link, title) :: rest, h => by
    rcases h with ⟨t, ht, e, he⟩
    simp only [runTasks]
    cases hd : download_obex_object_metadata fetch u link title with
    | error e' => exact ⟨e', rfl⟩
    | ok r =>
      rcases List.mem_cons.mp ht with rfl | hmem
      · exact absurd he (by simp [hd])
      · rcases runTasks_error fetch u rest ⟨t, hmem, e, he⟩ with ⟨e', he'⟩
        exact ⟨e', by rw [he']⟩

/-- A round of the extraction `for` loop that raises no exception hands
exactly the whole scan list to `extract`, in order. -/
theorem extractRound_calls (env : ZipEnv) :
    ∀ (zs fs fs' calls : List String),
      extractRound env fs zs = (fs', calls, none) → calls = zs
  | [], fs, fs', calls, h => by
    simp only [extractRound, Prod.mk.injEq] at h
    exact h.2.1.symm ▸ rfl
  | z :: zs, fs, fs', calls, h => by
    cases hx : extract env fs z (dirname z) with
    | error e => simp [extractRound, hx] at h
    | ok fs1 =>
      rcases hr : extractRound env fs1 zs with ⟨fs2, calls1, err1⟩
      simp only [extractRound, hx, hr, Prod.mk.injEq] at h
      rcases h with ⟨-, hcalls, herr⟩
      subst herr
      rw [← hcalls, extractRound_calls env zs fs1 fs2 calls1 hr]

/-- A project task whose artifacts all destructure as pairs never raises: the
per-artifact handler catches every exception from the loop body. -/
theorem download_object_pairs_ok (env : DlEnv) (fuel : Nat) (directory : String) :
    ∀ (artifacts : List (List String)) (fs : List String),
      (∀ a ∈ artifacts, a.length = 2) →
      ∃ out, download_object env fuel directory fs artifacts = .ok out
  | [], fs, _ => ⟨(fs, []), rfl⟩
  | a :: rest, fs, h => by
    have ha : a.length = 2 := h a (List.mem_cons_self a rest)
    match a, ha with
    | [url, name], _ =>
      rcases hb : artifactBody env fuel directory fs url name with ⟨fs', err?⟩
      have hrest : ∀ a ∈ rest, a.length = 2 := fun a ha => h a (List.mem_cons_of_mem _ ha)
      rcases download_object_pairs_ok env fuel directory rest fs' hrest with ⟨⟨fsr, log⟩, hout⟩
      simp only [download_object, hb, hout]
      cases err? <;> exact ⟨_, rfl⟩

/-! ## C1 — catalog fetch in the presence of one failing detail page -/

/-- C1, counterexample: with three project rows and a detail-page fetch that
fails (HTTP 404) for exactly the middle project, `download_all_metadata` does
*not* return a mapping containing the other projects — the worker's exception
re-raises at the `future.result()` barrier and the whole fetch aborts with the
HTTP error.  Nothing is caught or logged. -/
theorem c1_counterexample :
    download_all_metadata exFailFetch id exListingTable
      = .error "HTTP Error 404: Not Found" ∧
    ∀ m, download_all_metadata exFailFetch id exListingTable ≠ .ok m := by
  refine ⟨by rfl, ?_⟩
  intro m h
  rw [show download_all_metadata exFailFetch id exListingTable
        = .error "HTTP Error 404: Not Found" from rfl] at h
  exact Except.noConfusion h

/-- C1 (amended): if the detail-page fetch fails for at least one dispatched
project, `download_all_metadata` has no handler for it: the exception
propagates out of the `future.result()` barrier, the whole fetch aborts with
an error, and no mapping (not even one excluding the failed project) is
returned. -/
theorem c1_amended (fetch : String → Except String (List HtmlEvent))
    (u : String → String) (header : List String) (rest : List (List String))
    (li ti : Nat) (tasks : List (String × String))
    (hli : pyIndex header LINK_HEADER = .ok li)
    (hti : pyIndex header "Project Title" = .ok ti)
    (hsub : submitTasks li ti rest.dropLast = .ok tasks)
    (hfail : ∃ t ∈ tasks, ∃ e, download_obex_object_metadata fetch u t.1 t.2 = .error e) :
    ∃ e, download_all_metadata fetch u (header :: rest) = .error e := by
  rcases runTasks_error fetch u tasks hfail with ⟨e', he'⟩
  refine ⟨e', ?_⟩
  simp only [download_all_metadata, hli, hti, hsub]
  exact he'

/-- C1, witness: the amended theorem applied to the concrete listing and the
concrete failing fetch. -/
theorem c1_witness :
    ∃ e, download_all_metadata exFailFetch id
      (["Link", "Project Title"] :: [["/p1", "P1"], ["/p2", "P2"], ["/p3", "P3"], ["/end", "End"]])
      = .error e :=
  c1_amended exFailFetch id ["Link", "Project Title"]
    [["/p1", "P1"], ["/p2", "P2"], ["/p3", "P3"], ["/end", "End"]] 0 1
    [("/p1", "P1"), ("/p2", "P2"), ("/p3", "P3")] rfl rfl rfl
    ⟨("/p2", "P2"), by simp, "HTTP Error 404: Not Found", rfl⟩

/-! ## C2 — which archives each expansion round hands to extraction -/

/-- C2, counterexample: in the nested scenario (`a.zip` containing `b.zip`),
`p/a.zip` is handed to `extract` **twice** — once in round one and again in
round two — because each round's `for z in zips` iterates over the whole
current scan list, not over `set(zips) - set(extracted_zips)`. -/
theorem c2_counterexample :
    (zipLoop nestedZipEnv "p" 3 nestedFs (find_zips nestedFs "p") []).calls
      = ["p/a.zip", "p/a.zip", "p/b.zip"] ∧
    (zipLoop nestedZipEnv "p" 3 nestedFs (find_zips nestedFs "p") []).calls.count "p/a.zip"
      = 2 := by
  exact ⟨by rfl, by rfl⟩

/-- C2 (amended): whenever another round runs (the set difference
`zips − extracted` is non-empty) and the round raises no exception, the round
hands *every* archive of the current scan list `zips` to extraction — the set
difference only decides whether the `while` loop runs again, so an archive
expanded in an earlier round is extracted again in each later round in which
it still appears in the scan. -/
theorem c2_amended (env : ZipEnv) (directory : String) (fuel : Nat)
    (fs zips extracted fs' calls : List String)
    (hne : listDiff zips extracted ≠ [])
    (hround : extractRound env fs zips = (fs', calls, none)) :
    calls = zips ∧
    (zipLoop env directory (fuel + 1) fs zips extracted).calls
      = zips ++ (zipLoop env directory fuel fs'
          (find_zips fs' directory) (extracted ++ zips)).calls := by
  have hcalls : calls = zips := extractRound_calls env zips fs fs' calls hround
  refine ⟨hcalls, ?_⟩
  simp only [zipLoop, hround, if_neg hne]
  rw [hcalls]

/-- C2, witness: the amended theorem at the second round of the nested
scenario, where the scan list is `[p/a.zip, p/b.zip]` but only `p/b.zip` is in
the set difference — both are nevertheless handed to extraction. -/
theorem c2_witness :
    (["p/a.zip", "p/b.zip"] : List String) = ["p/a.zip", "p/b.zip"] ∧
    (zipLoop nestedZipEnv "p" 2 ["p/a.zip", "p/b.zip"] ["p/a.zip", "p/b.zip"] ["p/a.zip"]).calls
      = ["p/a.zip", "p/b.zip"] ++ (zipLoop nestedZipEnv "p" 1
          ["p/a.zip", "p/b.zip", "p/inner.txt"]
          (find_zips ["p/a.zip", "p/b.zip", "p/inner.txt"] "p")
          (["p/a.zip"] ++ ["p/a.zip", "p/b.zip"])).calls :=
  c2_amended nestedZipEnv "p" 1 ["p/a.zip", "p/b.zip"] ["p/a.zip", "p/b.zip"]
    ["p/a.zip"] ["p/a.zip", "p/b.zip", "p/inner.txt"] ["p/a.zip", "p/b.zip"]
    (by decide) (by rfl)

/-! ## C5 — where a corrupt archive's ExtractionError lands -/

/-- C5, counterexample: a corrupt archive does *not* abort the project task.
With every download succeeding and `c.zip` corrupt, the wrapped
`Failed to extract p/c.zip` exception is caught by the per-artifact handler
inside `download_object`, which returns normally (`.ok`) with the failure
merely printed; the claim's "propagates up to the enclosing project task
boundary, aborting that project's archive resolution" is false. -/
theorem c5_counterexample :
    download_object corruptZipEnv 2 "p" [] [["u", "c.zip"]]
      = .ok (["p/c.zip"],
        ["Failed to download from u! Sorry about that :( -- Failed to extract p/c.zip"]) ∧
    ∀ e, download_object corruptZipEnv 2 "p" [] [["u", "c.zip"]] ≠ .error e := by
  refine ⟨by rfl, ?_⟩
  intro e h
  rw [show download_object corruptZipEnv 2 "p" [] [["u", "c.zip"]]
        = .ok (["p/c.zip"],
          ["Failed to download from u! Sorry about that :( -- Failed to extract p/c.zip"]) from rfl] at h
  exact Except.noConfusion h

/-- C5 (amended): `extract` wraps a corrupt archive's `BadZipFile` into an
exception carrying the offending path, but that exception only reaches the
per-artifact `except` handler inside `download_object`: the handler logs it as
a download failure for the current artifact, the project task itself completes
normally for any pair-shaped artifact list, and sibling projects are
unaffected (concretely: project `A`'s corrupt `c.zip` is logged with its
wrapped path while project `B`'s artifact is still downloaded and the overall
mirror reports success). -/
theorem c5_amended (env : ZipEnv) (fs : List String) (p d : String)
    (hcorrupt : env.contents p = none) :
    extract env fs p d = .error ("Failed to extract " ++ p) ∧
    (∀ (env' : DlEnv) (fuel : Nat) (directory : String) (fs' : List String)
       (artifacts : List (List String)), (∀ a ∈ artifacts, a.length = 2) →
       ∃ out, download_object env' fuel directory fs' artifacts = .ok out) ∧
    download_all_objects corruptZipEnv 2
        [("A", [["u", "c.zip"]]), ("B", [["u4", "d.txt"]])] "out" false
      = .ok (["out/A/c.zip", "out/B/d.txt"],
        ["Failed to download from u! Sorry about that :( -- Failed to extract out/A/c.zip"]) := by
  refine ⟨?_, fun env' fuel directory fs' artifacts h =>
    download_object_pairs_ok env' fuel directory artifacts fs' h, by rfl⟩
  simp only [extract, hcorrupt]

/-- C5, witness: the amended theorem applied to the corrupt-archive
environment at path `p/c.zip`. -/
theorem c5_witness :
    extract corruptZipEnv.zip [] "p/c.zip" "p" = .error ("Failed to extract " ++ "p/c.zip") ∧
    (∀ (env' : DlEnv) (fuel : Nat) (directory : String) (fs' : List String)
       (artifacts : List (List String)), (∀ a ∈ artifacts, a.length = 2) →
       ∃ out, download_object env' fuel directory fs' artifacts = .ok out) ∧
    download_all_objects corruptZipEnv 2
        [("A", [["u", "c.zip"]]), ("B", [["u4", "d.txt"]])] "out" false
      = .ok (["out/A/c.zip", "out/B/d.txt"],
        ["Failed to download from u! Sorry about that :( -- Failed to extract out/A/c.zip"]) :=
  c5_amended corruptZipEnv.zip [] "p/c.zip" "p" rfl

/-! ## C7 — the URL recorded for a captured attachment anchor -/

/-- C7, counterexample: on the fragment
`<th>x</th>…Attachment<a href="/f/proj1.zip">proj1.zip</a>` the captured
candidate's URL is the decoded href `/f/proj1.zip` *verbatim* — the catalog
origin is **not** prefixed onto the relative path, contrary to the claim. -/
theorem c7_counterexample :
    objFeed id
      [.startTag "th" [], .text "x", .endTag "th", .text "Attachment",
       .startTag "a" [("href", "/f/proj1.zip")], .text "proj1.zip", .endTag "a"]
      = .ok [["/f/proj1.zip", "proj1.zip"]] ∧
    ("/f/proj1.zip" : String) ≠ "http://obex.parallax.com/f/proj1.zip" := by
  exact ⟨by rfl, by decide⟩

/-- C7 (amended): on entering an anchor while the just-saw-`Attachment` flag is
set, the new candidate's URL is exactly the HTML-entity-decoded `href`, with no
resolution against the catalog origin — a relative href stays relative and an
absolute href stays unchanged alike.  (In `downloadobex.py` the origin
`http://obex.parallax.com` is prefixed only onto the listing's detail-page
link inside `download_obex_object_metadata`, never onto attachment hrefs.) -/
theorem c7_amended (u : String → String) (st : ObjParserState)
    (attrs : List (String × String)) (h : String)
    (hwere : st.wereAlmostThere = true)
    (hhref : attrDict attrs "href" = some h) :
    objStep u st (.startTag "a" attrs)
      = .ok { st with weMadeIt := true, links := st.links ++ [[u h]] } := by
  simp only [objStep, objStart, hwere, hhref]
  rfl

/-- C7, witness: the amended theorem at a concrete armed state and a concrete
relative href. -/
theorem c7_witness :
    objStep id ⟨true, true, false, []⟩ (.startTag "a" [("href", "/f/proj1.zip")])
      = .ok { (⟨true, true, false, []⟩ : ObjParserState) with
              weMadeIt := true, links := [] ++ [[id "/f/proj1.zip"]] } :=
  c7_amended id ⟨true, true, false, []⟩ [("href", "/f/proj1.zip")] "/f/proj1.zip"
    rfl rfl

/-! ## C3 — termination of the archive-resolution loop

The loop terminates because (a) extraction only ever adds files, all of whose
paths stay inside the finite closure `U` of the initial filesystem under the
archives' contents, and (b) each round that runs adds to `extracted_zips` at
least one member of `U` that was not there before, so the measure
`|U \ extracted|` strictly decreases. -/

theorem addFile_subset {S : String → Prop} {fs : List String} {p : String}
    (hfs : ∀ q ∈ fs, S q) (hp : S p) : ∀ q ∈ addFile fs p, S q := by
  intro q hq
  unfold addFile at hq
  split at hq
  · exact hfs q hq
  · rcases List.mem_append.mp hq with h | h
    · exact hfs q h
    · rw [List.mem_singleton.mp h]; exact hp

theorem addFile_mono {fs : List String} (p : String) : ∀ q ∈ fs, q ∈ addFile fs p := by
  intro q hq
  unfold addFile
  split
  · exact hq
  · exact List.mem_append.mpr (Or.inl hq)

theorem foldl_addFile_subset {S : String → Prop} :
    ∀ (ms fs : List String) (d : String),
      (∀ q ∈ fs, S q) → (∀ m ∈ ms, S (d ++ "/" ++ m)) →
      ∀ q ∈ ms.foldl (fun acc m => addFile acc (d ++ "/" ++ m)) fs, S q
  | [], _, _, hfs, _, q, hq => hfs q hq
  | m :: ms, fs, d, hfs, hms, q, hq =>
    foldl_addFile_subset ms (addFile fs (d ++ "/" ++ m)) d
      (addFile_subset hfs (hms m (List.mem_cons_self _ _)))
      (fun m' hm' => hms m' (List.mem_cons_of_mem _ hm')) q hq

theorem foldl_addFile_mono :
    ∀ (ms fs : List String) (d q : String), q ∈ fs →
      q ∈ ms.foldl (fun acc m => addFile acc (d ++ "/" ++ m)) fs
  | [], _, _, _, hq => hq
  | m :: ms, fs, d, q, hq =>
    foldl_addFile_mono ms (addFile fs (d ++ "/" ++ m)) d q (addFile_mono _ q hq)

theorem extract_contents_ok {env : ZipEnv} {z : String} {ms : List String}
    (h : env.contents z = some ms) (fs : List String) (d : String) :
    extract env fs z d = .ok (ms.foldl (fun acc m => addFile acc (d ++ "/" ++ m)) fs) := by
  simp [extract, h]

/-- When every scanned archive lies in `U` and is readable, a whole round
succeeds, only grows the filesystem, and stays inside `U`. -/
theorem extractRound_ok (env : ZipEnv) (U : Finset String)
    (hclosed : ∀ z ∈ U, ∀ m ∈ (env.contents z).getD [], (dirname z ++ "/" ++ m) ∈ U)
    (hwf : ∀ z ∈ U, isZip z = true → (env.contents z).isSome) :
    ∀ (zs fs : List String),
      (∀ z ∈ zs, z ∈ U ∧ isZip z = true) → (∀ p ∈ fs, p ∈ U) →
      ∃ fs', extractRound env fs zs = (fs', zs, none) ∧
        (∀ p ∈ fs, p ∈ fs') ∧ (∀ p ∈ fs', p ∈ U)
  | [], fs, _, hfs => ⟨fs, rfl, fun _ hp => hp, hfs⟩
  | z :: zs, fs, hzs, hfs => by
    have hz := hzs z (List.mem_cons_self _ _)
    rcases Option.isSome_iff_exists.mp (hwf z hz.1 hz.2) with ⟨ms, hms⟩
    have hx := extract_contents_ok hms fs (dirname z)
    have hmemU : ∀ m ∈ ms, (dirname z ++ "/" ++ m) ∈ U := by
      intro m hm
      exact hclosed z hz.1 m (by rw [hms]; exact hm)
    have hfoldU : ∀ p ∈ ms.foldl (fun acc m => addFile acc (dirname z ++ "/" ++ m)) fs, p ∈ U :=
      foldl_addFile_subset ms fs (dirname z) hfs hmemU
    rcases extractRound_ok env U hclosed hwf zs
        (ms.foldl (fun acc m => addFile acc (dirname z ++ "/" ++ m)) fs)
        (fun z' hz' => hzs z' (List.mem_cons_of_mem _ hz')) hfoldU with
      ⟨fs', hrec, hmono2, hU⟩
    refine ⟨fs', ?_, ?_, hU⟩
    · simp only [extractRound, hx, hrec]
    · exact fun p hp => hmono2 p (foldl_addFile_mono ms fs (dirname z) p hp)

theorem mem_of_mem_listDiff {zips extracted : List String} {z : String}
    (h : z ∈ listDiff zips extracted) : z ∈ zips ∧ z ∉ extracted := by
  simpa [listDiff] using List.mem_filter.mp h

theorem listDiff_nil_of_measure_zero {U : Finset String} {extracted : List String}
    {zips fs : List String}
    (hfs : ∀ p ∈ fs, p ∈ U) (hzips : ∀ z ∈ zips, z ∈ fs ∧ isZip z = true)
    (hcard : (U.filter (fun x => x ∉ extracted)).card = 0) :
    listDiff zips extracted = [] := by
  by_contra hne
  rcases List.exists_mem_of_ne_nil _ hne with ⟨z, hz⟩
  rcases mem_of_mem_listDiff hz with ⟨hzz, hznot⟩
  have hzU : z ∈ U := hfs z (hzips z hzz).1
  have hmem : z ∈ U.filter (fun x => x ∉ extracted) :=
    Finset.mem_filter.mpr ⟨hzU, hznot⟩
  have := Finset.card_pos.mpr ⟨z, hmem⟩
  omega

/-- Fuel sufficiency: with fuel at least `|U \ extracted|`, the loop neither
exhausts its fuel nor raises — i.e. the Python `while` loop terminates
normally whenever the reachable archive universe is finite and every reachable
archive is readable. -/
theorem zipLoop_terminates (env : ZipEnv) (U : Finset String) (directory : String)
    (hclosed : ∀ z ∈ U, ∀ m ∈ (env.contents z).getD [], (dirname z ++ "/" ++ m) ∈ U)
    (hwf : ∀ z ∈ U, isZip z = true → (env.contents z).isSome) :
    ∀ (fuel : Nat) (fs zips extracted : List String),
      (∀ p ∈ fs, p ∈ U) → (∀ z ∈ zips, z ∈ fs ∧ isZip z = true) →
      (U.filter (fun x => x ∉ extracted)).card ≤ fuel →
      (zipLoop env directory fuel fs zips extracted).err = none ∧
      (zipLoop env directory fuel fs zips extracted).fuelOut = false := by
  intro fuel
  induction fuel with
  | zero =>
    intro fs zips extracted hfs hzips hcard
    have hdiff : listDiff zips extracted = [] :=
      listDiff_nil_of_measure_zero hfs hzips (Nat.le_zero.mp hcard)
    simp [zipLoop, hdiff]
  | succ fuel ih =>
    intro fs zips extracted hfs hzips hcard
    cases hdiff : listDiff zips extracted with
    | nil => simp [zipLoop, hdiff]
    | cons z0 rest =>
      have hz0 : z0 ∈ listDiff zips extracted := by rw [hdiff]; exact List.mem_cons_self _ _
      rcases mem_of_mem_listDiff hz0 with ⟨hz0zips, hz0not⟩
      have hzsU : ∀ z ∈ zips, z ∈ U ∧ isZip z = true :=
        fun z hz => ⟨hfs z (hzips z hz).1, (hzips z hz).2⟩
      rcases extractRound_ok env U hclosed hwf zips fs hzsU hfs with ⟨fs', hround, _, hfs'U⟩
      have hzips' : ∀ z ∈ find_zips fs' directory, z ∈ fs' ∧ isZip z = true := by
        intro z hz
        have h' := List.mem_filter.mp hz
        have hp : underDir directory z = true ∧ isZip z = true := by simpa using h'.2
        exact ⟨h'.1, hp.2⟩
      have hmeasure : (U.filter (fun x => x ∉ extracted ++ zips)).card ≤ fuel := by
        have hsub : U.filter (fun x => x ∉ extracted ++ zips)
            ⊆ U.filter (fun x => x ∉ extracted) := by
          intro x hx
          rcases Finset.mem_filter.mp hx with ⟨hxU, hxnot⟩
          exact Finset.mem_filter.mpr
            ⟨hxU, fun hmem => hxnot (List.mem_append.mpr (Or.inl hmem))⟩
        have hz0U : z0 ∈ U := hfs z0 (hzips z0 hz0zips).1
        have hz0old : z0 ∈ U.filter (fun x => x ∉ extracted) :=
          Finset.mem_filter.mpr ⟨hz0U, hz0not⟩
        have hz0new : z0 ∉ U.filter (fun x => x ∉ extracted ++ zips) := by
          intro hmem
          exact (Finset.mem_filter.mp hmem).2 (List.mem_append.mpr (Or.inr hz0zips))
        have hss : U.filter (fun x => x ∉ extracted ++ zips)
            ⊂ U.filter (fun x => x ∉ extracted) :=
          (Finset.ssubset_iff_of_subset hsub).mpr ⟨z0, hz0old, hz0new⟩
        have := Finset.card_lt_card hss
        omega
      have hne : listDiff zips extracted ≠ [] := by rw [hdiff]; simp
      have hrec := ih fs' (find_zips fs' directory) (extracted ++ zips) hfs'U hzips' hmeasure
      simp only [zipLoop, if_neg hne, hround]
      exact hrec

/-- C3: the archive-resolution loop always terminates.  (i) In general,
whenever the reachable archive paths stay inside a finite universe `U` and
every reachable archive is readable, fuel `|U \ extracted|` suffices: the loop
ends with no extraction error and without exhausting the model's fuel.
(ii) Applied to a directory whose `a.zip` contains `b.zip` (which contains
only `inner.txt`), the loop performs exactly two expansion rounds and leaves
no unextracted archive: every zip present in the final filesystem was handed
to extraction.  (iii) Applied to a directory containing no zip file, the loop
body is never entered: zero rounds, no extraction calls, filesystem
untouched. -/
theorem c3_loop_terminates :
    (∀ (env : ZipEnv) (U : Finset String) (directory : String)
       (fuel : Nat) (fs zips extracted : List String),
       (∀ z ∈ U, ∀ m ∈ (env.contents z).getD [], (dirname z ++ "/" ++ m) ∈ U) →
       (∀ z ∈ U, isZip z = true → (env.contents z).isSome) →
       (∀ p ∈ fs, p ∈ U) → (∀ z ∈ zips, z ∈ fs ∧ isZip z = true) →
       (U.filter (fun x => x ∉ extracted)).card ≤ fuel →
       (zipLoop env directory fuel fs zips extracted).err = none ∧
       (zipLoop env directory fuel fs zips extracted).fuelOut = false) ∧
    ((zipLoop nestedZipEnv "p" 3 nestedFs (find_zips nestedFs "p") []).rounds = 2 ∧
     (zipLoop nestedZipEnv "p" 3 nestedFs (find_zips nestedFs "p") []).err = none ∧
     (zipLoop nestedZipEnv "p" 3 nestedFs (find_zips nestedFs "p") []).fuelOut = false ∧
     ∀ z ∈ find_zips (zipLoop nestedZipEnv "p" 3 nestedFs (find_zips nestedFs "p") []).fs "p",
       z ∈ (zipLoop nestedZipEnv "p" 3 nestedFs (find_zips nestedFs "p") []).calls) ∧
    zipLoop nestedZipEnv "p" 3 plainFs (find_zips plainFs "p") []
      = ⟨plainFs, 0, [], none, false⟩ := by
  refine ⟨fun env U directory fuel fs zips extracted hclosed hwf hfs hzips hcard =>
    zipLoop_terminates env U directory hclosed hwf fuel fs zips extracted hfs hzips hcard,
    ⟨by rfl, by rfl, by rfl, by decide⟩, by rfl⟩

/-- C3, witness: the general conjunct applied to the concrete nested scenario
with the three-path universe. -/
theorem c3_witness :
    (zipLoop nestedZipEnv "p" 3 nestedFs (find_zips nestedFs "p") []).err = none ∧
    (zipLoop nestedZipEnv "p" 3 nestedFs (find_zips nestedFs "p") []).fuelOut = false :=
  c3_loop_terminates.1 nestedZipEnv
    ({"p/a.zip", "p/b.zip", "p/inner.txt"} : Finset String) "p" 3
    nestedFs (find_zips nestedFs "p") []
    (by decide) (by decide) (by decide) (by decide) (by decide)

/-! ## C4 — best-effort per-artifact failure handling -/

/-- C4: (i) for any environment and any artifact list of `(url, name)` pairs,
`download_object` returns normally — every per-artifact exception is caught by
the in-loop handler, so the project task never fails; (ii) concretely, with
`u2` failing among three artifacts spread over two projects, the whole mirror
completes with `.ok`: the failure is logged with the offending URL and the
underlying error, the failed artifact's file is still created (empty) since
`open` precedes `urlopen`, and every other artifact — in the same project and
in the sibling project — is downloaded. -/
theorem c4_best_effort :
    (∀ (env : DlEnv) (fuel : Nat) (directory : String) (fs : List String)
       (artifacts : List (List String)), (∀ a ∈ artifacts, a.length = 2) →
       ∃ out, download_object env fuel directory fs artifacts = .ok out) ∧
    download_all_objects bestEffortEnv 2
        [("A", [["u1", "f1.txt"], ["u2", "f2.txt"]]), ("B/C", [["u3", "f3.txt"]])]
        "out" false
      = .ok (["out/A/f1.txt", "out/A/f2.txt", "out/B_C/f3.txt"],
        ["Failed to download from u2! Sorry about that :( -- HTTP Error 500: Internal Server Error"]) :=
  ⟨fun env fuel directory fs artifacts h =>
    download_object_pairs_ok env fuel directory artifacts fs h, by rfl⟩

/-- C4, witness: the general conjunct applied to the best-effort environment
and a concrete pair-shaped artifact list containing the failing URL. -/
theorem c4_witness :
    ∃ out, download_object bestEffortEnv 2 "p" [] [["u1", "f1.txt"], ["u2", "f2.txt"]]
      = .ok out :=
  c4_best_effort.1 bestEffortEnv 2 "p" [] [["u1", "f1.txt"], ["u2", "f2.txt"]]
    (by decide)

/-! ## C6 — which rows get a detail-page fetch task -/

theorem rowGet_ok {row : List String} {i : Nat} (h : i < row.length) :
    rowGet row i = .ok (row.getD i "") := by
  unfold rowGet
  rcases hg : row.get? i with - | v
  · exact absurd (List.get?_eq_none.mp hg) (by omega)
  · rw [List.getD_eq_getD_get?, hg]
    rfl

theorem submitTasks_ok (li ti : Nat) :
    ∀ rows : List (List String),
      (∀ row ∈ rows, li < row.length ∧ ti < row.length) →
      submitTasks li ti rows
        = .ok (rows.map (fun row => (row.getD li "", row.getD ti "")))
  | [], _ => rfl
  | row :: rows, h => by
    have hh := h row (List.mem_cons_self _ _)
    simp only [submitTasks, rowGet_ok hh.1, rowGet_ok hh.2,
      submitTasks_ok li ti rows (fun r hr => h r (List.mem_cons_of_mem _ hr)),
      List.map]

/-- C6: when both required columns resolve in the header and every dispatched
row is long enough, the catalog fetcher dispatches exactly one detail-page
task per element of `rest.dropLast` — that is, one per data row except the
trailing sentinel row, and none for the header row (which only supplies the
column indices) nor for the final row.  The number of dispatched tasks is
`rest.length - 1`. -/
theorem c6_task_dispatch (fetch : String → Except String (List HtmlEvent))
    (u : String → String) (header : List String) (rest : List (List String))
    (li ti : Nat)
    (hli : pyIndex header LINK_HEADER = .ok li)
    (hti : pyIndex header "Project Title" = .ok ti)
    (hlen : ∀ row ∈ rest.dropLast, li < row.length ∧ ti < row.length) :
    download_all_metadata fetch u (header :: rest)
      = runTasks fetch u
          ((rest.dropLast).map (fun row => (row.getD li "", row.getD ti ""))) ∧
    ((rest.dropLast).map (fun row => (row.getD li "", row.getD ti ""))).length
      = rest.length - 1 := by
  constructor
  · simp only [download_all_metadata, hli, hti,
      submitTasks_ok li ti rest.dropLast hlen]
  · rw [List.length_map, List.length_dropLast]

/-- C6, witness: the dispatch theorem at the concrete listing table — three
tasks, one per project row, none for the header or the trailing row. -/
theorem c6_witness :
    download_all_metadata exFailFetch id
        (["Link", "Project Title"]
          :: [["/p1", "P1"], ["/p2", "P2"], ["/p3", "P3"], ["/end", "End"]])
      = runTasks exFailFetch id
          (([["/p1", "P1"], ["/p2", "P2"], ["/p3", "P3"], ["/end", "End"]].dropLast).map
            (fun row => (row.getD 0 "", row.getD 1 ""))) ∧
    (([["/p1", "P1"], ["/p2", "P2"], ["/p3", "P3"], ["/end", "End"]].dropLast).map
        (fun row => (row.getD 0 "", row.getD 1 ""))).length
      = [["/p1", "P1"], ["/p2", "P2"], ["/p3", "P3"], ["/end", "End"]].length - 1 :=
  c6_task_dispatch exFailFetch id ["Link", "Project Title"]
    [["/p1", "P1"], ["/p2", "P2"], ["/p3", "P3"], ["/end", "End"]] 0 1
    rfl rfl (by decide)

/-! ## C9 — the CSV sink never influences the returned table -/

theorem writeOut_stripOut (st : ListParserState) (s : String) :
    stripOut (writeOut st s) = stripOut st := by
  unfold writeOut stripOut
  cases st.output <;> rfl

/-- One parser step commutes with forgetting the sink: the sink content is
write-only, no branch of the state machine reads it. -/
theorem listStep_stripOut (u : String → String) (st : ListParserState) (e : HtmlEvent) :
    listStep u (stripOut st) e = (listStep u st e).map stripOut := by
  obtain ⟨ih, ic, il, tb, cr, sk, out⟩ := st
  cases e with
  | startTag tag attrs =>
    cases out <;> cases cr <;>
      simp only [listStep, listStart, stripOut, writeOut, Except.map] <;>
      split_ifs <;>
      first
      | rfl
      | (cases attrDict attrs "href" <;> rfl)
  | endTag tag =>
    cases out <;> cases cr <;>
      simp only [listStep, listEnd, stripOut, writeOut, Except.map] <;>
      split_ifs <;> rfl
  | text data =>
    cases out <;> cases cr <;>
      simp only [listStep, listData, stripOut, writeOut, Except.map] <;>
      split_ifs <;> rfl

theorem listRun_stripOut (u : String → String) :
    ∀ (events : List HtmlEvent) (st : ListParserState),
      listRun u (stripOut st) events = (listRun u st events).map stripOut
  | [], _ => rfl
  | e :: es, st => by
    have hstep := listStep_stripOut u st e
    cases h : listStep u st e with
    | ok st' =>
      rw [h] at hstep
      simp only [listRun, hstep, h, Except.map]
      exact listRun_stripOut u es st'
    | error msg =>
      rw [h] at hstep
      simp only [listRun, hstep, h, Except.map]

/-- C9: for every token stream, the table returned by `ObexListParser.feed` is
identical with and without a CSV sink — writing the quoted comma-separated
snapshot is a pure side channel that changes no cell, no row, and no ordering
(and a parse error is raised in one run exactly when it is raised in the
other). -/
theorem c9_sink_independent (u : String → String) (events : List HtmlEvent) :
    (listFeed u true events).map (fun r => r.1)
      = (listFeed u false events).map (fun r => r.1) := by
  have h := listRun_stripOut u events
    (writeOut (initListState true) ("\"" ++ LINK_HEADER ++ "\","))
  have hinit : stripOut (writeOut (initListState true) ("\"" ++ LINK_HEADER ++ "\","))
      = writeOut (initListState false) ("\"" ++ LINK_HEADER ++ "\",") := by rfl
  rw [hinit] at h
  simp only [listFeed]
  cases hr : listRun u (writeOut (initListState true) ("\"" ++ LINK_HEADER ++ "\","))
      events with
  | ok stf =>
    rw [hr] at h
    rw [h]
    rfl
  | error msg =>
    rw [hr] at h
    rw [h]
    rfl

/-! ## C10 — candidate shape versus the `for url, name in artifacts` unpack -/

theorem appendToLast_concat :
    ∀ (L : List (List String)) (cand : List String) (x : String),
      appendToLast (L ++ [cand]) x = .ok (L ++ [cand ++ [x]])
  | [], cand, x => rfl
  | y :: L', cand, x => by
    show appendToLast (y :: (L' ++ [cand])) x = _
    simp only [appendToLast]
    rw [show y :: (L' ++ [cand]) = (y :: L') ++ [cand] from rfl,
      List.dropLast_concat, List.getLastD_concat]

/-- While the captured anchor is open (`_weMadeIt`), every text node appends
its whitespace-collapsed content to the last candidate, and closing the anchor
clears both flags. -/
theorem objRun_capture (u : String → String) :
    ∀ (texts : List String) (g : Bool) (L : List (List String)) (cand : List String),
      objRun u ⟨g, true, true, L ++ [cand]⟩ (texts.map HtmlEvent.text ++ [.endTag "a"])
        = .ok ⟨g, false, false, L ++ [cand ++ texts.map (fun t => collapseWs (pyStrip t))]⟩
  | [], g, L, cand => by
    simp only [List.map_nil, List.nil_append, List.append_nil]
    rfl
  | t :: texts, g, L, cand => by
    have hstep : objStep u ⟨g, true, true, L ++ [cand]⟩ (.text t)
        = .ok ⟨g, true, true, L ++ [cand ++ [collapseWs (pyStrip t)]]⟩ := by
      simp only [objStep, objData]
      split <;> (simp only [appendToLast_concat]; rfl)
    simp only [List.map_cons, List.cons_append, objRun, hstep, List.append_eq]
    rw [objRun_capture u texts g L (cand ++ [collapseWs (pyStrip t)])]
    simp

/-- Shows that `download_object` raises `ValueError` (uncaught — the handler sits inside
the loop body, the unpack in the `for` header is outside it) as soon as it
reaches an artifact that is not a two-element list, no matter how many
well-formed artifacts precede it. -/
theorem download_object_unpack_error (env : DlEnv) (fuel : Nat) (directory : String) :
    ∀ (pre : List (List String)) (fs : List String) (bad : List String)
      (rest : List (List String)),
      (∀ a ∈ pre, a.length = 2) → bad.length ≠ 2 →
      ∃ e, download_object env fuel directory fs (pre ++ bad :: rest) = .error e
  | [], _, bad, rest, _, hbad => by
    match bad, hbad with
    | [], _ => exact ⟨_, rfl⟩
    | [x], _ => exact ⟨_, rfl⟩
    | x :: y :: z :: tail, _ => exact ⟨_, rfl⟩
    | [x, y], hbad => exact absurd rfl hbad
  | a :: pre, fs, bad, rest, h, hbad => by
    have ha := h a (List.mem_cons_self _ _)
    match a, ha with
    | [url, name], _ =>
      rcases hb : artifactBody env fuel directory fs url name with ⟨fs', err?⟩
      rcases download_object_unpack_error env fuel directory pre fs' bad rest
        (fun a' ha' => h a' (List.mem_cons_of_mem _ ha')) hbad with ⟨e, he⟩
      refine ⟨e, ?_⟩
      simp only [List.cons_append, download_object, hb, List.append_eq, he]

/-- C10: (i) a candidate begun by an anchor with decoded href `u h` is the
list `u h :: one collapsed entry per text node inside the anchor` — zero text
nodes give a one-element candidate, two or more give a list longer than two;
(ii) `download_object` destructures each artifact as exactly a pair in the
`for` header, *outside* the per-artifact `try`, so any candidate whose length
is not two makes the whole project task raise `ValueError` instead of being
logged and skipped. -/
theorem c10_candidate_unpack :
    (∀ (u : String → String) (g : Bool) (L : List (List String))
       (attrs : List (String × String)) (h : String) (texts : List String),
       attrDict attrs "href" = some h →
       objRun u ⟨g, true, false, L⟩
           (.startTag "a" attrs :: (texts.map HtmlEvent.text ++ [.endTag "a"]))
         = .ok ⟨g, false, false,
             L ++ [u h :: texts.map (fun t => collapseWs (pyStrip t))]⟩) ∧
    (∀ (env : DlEnv) (fuel : Nat) (directory : String) (fs : List String)
       (pre : List (List String)) (bad : List String) (rest : List (List String)),
       (∀ a ∈ pre, a.length = 2) → bad.length ≠ 2 →
       ∃ e, download_object env fuel directory fs (pre ++ bad :: rest) = .error e) := by
  constructor
  · intro u g L attrs h texts hhref
    have hstep : objStep u ⟨g, true, false, L⟩ (.startTag "a" attrs)
        = .ok ⟨g, true, true, L ++ [[u h]]⟩ := by
      simp only [objStep, objStart, hhref]
      rfl
    simp only [objRun, hstep]
    exact objRun_capture u texts g L [u h]
  · intro env fuel directory fs pre bad rest hpre hbad
    exact download_object_unpack_error env fuel directory pre fs bad rest hpre hbad

/-- C10, witness: a concrete anchor with zero text nodes yields the
one-element candidate `["/f/a.zip"]`, and a project whose artifact list
contains that candidate raises instead of logging. -/
theorem c10_witness :
    objRun id ⟨true, true, false, []⟩
        (.startTag "a" [("href", "/f/a.zip")]
          :: (([] : List String).map HtmlEvent.text ++ [.endTag "a"]))
      = .ok ⟨true, false, false,
          [] ++ [id "/f/a.zip" :: ([] : List String).map (fun t => collapseWs (pyStrip t))]⟩ ∧
    ∃ e, download_object corruptZipEnv 2 "p" [] ([] ++ ["/f/a.zip"] :: [])
      = .error e :=
  ⟨c10_candidate_unpack.1 id true [] [("href", "/f/a.zip")] "/f/a.zip" [] rfl,
   c10_candidate_unpack.2 corruptZipEnv 2 "p" [] [] ["/f/a.zip"] []
     (by simp) (by decide)⟩

/-! ## C8 — the synthesized header row -/

/-- Processing one well-formed header cell from a state that is between cells
appends exactly one collapsed text column to the current row; an anchor inside
the cell is ignored because `_inHeader` is set.  (After the cell, `_inCell` is
left `true`: `</th>` never resets it.) -/
theorem listRun_headerCell (u : String → String) (hOpt : Option String) (t : String)
    (b il sk : Bool) (tb : List (List String)) (r : List String)
    (hne : collapseWs t ≠ "") (rest : List HtmlEvent) :
    listRun u ⟨false, b, il, tb, some r, sk, none⟩ (headerCellEvents (hOpt, t) ++ rest)
      = listRun u ⟨false, true, il, tb, some (r ++ [collapseWs t]), sk, none⟩ rest := by
  have hbeq : (collapseWs t == "") = false := by
    rw [beq_eq_false_iff_ne]
    exact hne
  have h2 : listStep u ⟨true, true, il, tb, some r, sk, none⟩ (.text t)
      = .ok ⟨true, true, il, tb, some (r ++ [collapseWs t]), sk, none⟩ := by
    simp only [listStep, listData, hbeq]
    rfl
  cases hOpt with
  | none =>
    show listRun u ⟨false, b, il, tb, some r, sk, none⟩
        (.startTag "th" [] :: .text t :: .endTag "th" :: rest) = _
    rw [show listRun u ⟨false, b, il, tb, some r, sk, none⟩
          (.startTag "th" [] :: .text t :: .endTag "th" :: rest)
        = listRun u ⟨true, true, il, tb, some r, sk, none⟩
            (.text t :: .endTag "th" :: rest) from rfl]
    simp only [listRun, h2]
    rfl
  | some href =>
    show listRun u ⟨false, b, il, tb, some r, sk, none⟩
        (.startTag "th" [] :: .startTag "a" [("href", href)] :: .text t
          :: .endTag "a" :: .endTag "th" :: rest) = _
    rw [show listRun u ⟨false, b, il, tb, some r, sk, none⟩
          (.startTag "th" [] :: .startTag "a" [("href", href)] :: .text t
            :: .endTag "a" :: .endTag "th" :: rest)
        = listRun u ⟨true, true, il, tb, some r, sk, none⟩
            (.text t :: .endTag "a" :: .endTag "th" :: rest) from rfl]
    simp only [listRun, h2]
    rfl

theorem listRun_headerCells (u : String → String) :
    ∀ (cells : List (Option String × String)) (b il sk : Bool)
      (tb : List (List String)) (r : List String) (rest : List HtmlEvent),
      (∀ c ∈ cells, collapseWs c.2 ≠ "") →
      ∃ b', listRun u ⟨false, b, il, tb, some r, sk, none⟩
          ((cells.map headerCellEvents).flatten ++ rest)
        = listRun u ⟨false, b', il, tb,
            some (r ++ cells.map (fun c => collapseWs c.2)), sk, none⟩ rest
  | [], b, _, _, _, r, rest, _ => ⟨b, by simp⟩
  | c :: cells, b, il, sk, tb, r, rest, h => by
    obtain ⟨hOpt, t⟩ := c
    rw [List.map_cons, List.flatten_cons, List.append_assoc]
    rw [listRun_headerCell u hOpt t b il sk tb r
      (h (hOpt, t) (List.mem_cons_self _ _)) _]
    rcases listRun_headerCells u cells true il sk tb (r ++ [collapseWs t]) rest
      (fun c' hc' => h c' (List.mem_cons_of_mem _ hc')) with ⟨b', hb⟩
    refine ⟨b', ?_⟩
    rw [hb]
    simp

/-- Running the parser over a well-formed header row yields the table
`[Link :: collapsed header texts]`: the synthetic `Link` column is prepended
because the table is empty when the row opens, each header cell contributes
its text, and header-cell anchors contribute nothing. -/
theorem listRun_headerRow (u : String → String) (cells : List (Option String × String))
    (hne : ∀ c ∈ cells, collapseWs c.2 ≠ "") (rest : List HtmlEvent) :
    ∃ b', listRun u (writeOut (initListState false) ("\"" ++ LINK_HEADER ++ "\","))
        (headerRowEvents cells ++ rest)
      = listRun u ⟨false, b', false,
          [LINK_HEADER :: cells.map (fun c => collapseWs c.2)], none, true, none⟩ rest := by
  have h0 : listRun u (writeOut (initListState false) ("\"" ++ LINK_HEADER ++ "\","))
      (headerRowEvents cells ++ rest)
    = listRun u ⟨false, false, false, [], some [LINK_HEADER], true, none⟩
        ((cells.map headerCellEvents).flatten ++ (HtmlEvent.endTag "tr" :: rest)) := by
    simp only [headerRowEvents, List.append_assoc, List.cons_append, List.nil_append,
      List.singleton_append]
    rfl
  rcases listRun_headerCells u cells false false true [] [LINK_HEADER]
    (HtmlEvent.endTag "tr" :: rest) hne with ⟨b', hb⟩
  refine ⟨b', ?_⟩
  rw [h0, hb]
  rfl

/-- A single parser step only ever appends to the accumulated table. -/
theorem listStep_table_extend (u : String → String) (st : ListParserState)
    (e : HtmlEvent) (st' : ListParserState) (h : listStep u st e = .ok st') :
    ∃ ext, st'.table = st.table ++ ext := by
  obtain ⟨ih, ic, il, tb, cr, sk, out⟩ := st
  cases e with
  | startTag tag attrs =>
    cases out <;> cases cr <;>
      simp only [listStep, listStart, writeOut] at h <;>
      split_ifs at h <;>
      (try split at h) <;>
      (try cases h) <;>
      first
      | exact ⟨_, rfl⟩
      | exact ⟨[], by simp⟩
  | endTag tag =>
    cases out <;> cases cr <;>
      simp only [listStep, listEnd, writeOut] at h <;>
      split_ifs at h <;>
      (try cases h) <;>
      first
      | exact ⟨_, rfl⟩
      | exact ⟨[], by simp⟩
  | text data =>
    cases out <;> cases cr <;>
      simp only [listStep, listData, writeOut] at h <;>
      split_ifs at h <;>
      (try cases h) <;>
      first
      | exact ⟨_, rfl⟩
      | exact ⟨[], by simp⟩

theorem listRun_table_extend (u : String → String) :
    ∀ (events : List HtmlEvent) (st st' : ListParserState),
      listRun u st events = .ok st' → ∃ ext, st'.table = st.table ++ ext
  | [], st, st', h => by
    simp only [listRun] at h
    injection h with h'
    exact ⟨[], by rw [← h']; simp⟩
  | e :: es, st, st', h => by
    cases hstep : listStep u st e with
    | error msg =>
      simp only [listRun, hstep] at h
      exact Except.noConfusion h
    | ok st1 =>
      simp only [listRun, hstep] at h
      rcases listStep_table_extend u st e st1 hstep with ⟨ext1, h1⟩
      rcases listRun_table_extend u es st1 st' h with ⟨ext2, h2⟩
      exact ⟨ext1 ++ ext2, by rw [h2, h1, List.append_assoc]⟩

/-- C8: (i) for any well-formed listing whose header row has non-empty literal
cells, whatever follows the header row in the document, the first row of the
returned table is the synthetic `Link` column followed by one column per
literal header cell, in document order — header-cell anchors contribute no
cell; (ii) in general, a start-anchor event leaves the parser state entirely
unchanged whenever the `_inHeader` flag is set. -/
theorem c8_header_row (u : String → String) (cells : List (Option String × String))
    (rest : List HtmlEvent) (t : List (List String)) (o : Option String)
    (hne : ∀ c ∈ cells, collapseWs c.2 ≠ "")
    (hfeed : listFeed u false (headerRowEvents cells ++ rest) = .ok (t, o)) :
    (∃ more, t = (LINK_HEADER :: cells.map (fun c => collapseWs c.2)) :: more) ∧
    (∀ (st : ListParserState) (attrs : List (String × String)),
       st.inHeader = true → listStep u st (.startTag "a" attrs) = .ok st) := by
  constructor
  · simp only [listFeed] at hfeed
    cases hr : listRun u (writeOut (initListState false) ("\"" ++ LINK_HEADER ++ "\","))
        (headerRowEvents cells ++ rest) with
    | error msg => rw [hr] at hfeed; simp [Except.map] at hfeed
    | ok stf =>
      rw [hr] at hfeed
      simp only [Except.map] at hfeed
      injection hfeed with h'
      have ht : stf.table = t := congrArg Prod.fst h'
      rcases listRun_headerRow u cells hne rest with ⟨b', hrow⟩
      rw [hrow] at hr
      rcases listRun_table_extend u rest _ stf hr with ⟨ext, hext⟩
      refine ⟨ext, ?_⟩
      rw [← ht, hext]
      rfl
  · intro st attrs hinH
    obtain ⟨ih, ic, il, tb, cr, sk, out⟩ := st
    have hih : ih = true := hinH
    subst hih
    simp [listStep, listStart]

/-- C8, witness: a concrete header row whose first cell contains an anchor —
the returned table is exactly the synthetic `Link` column plus the two header
texts, with no trace of the href. -/
theorem c8_witness :
    (∃ more, [["Link", "Project Title", "Date"]]
        = (LINK_HEADER
            :: [((some "/x" : Option String), "Project Title"),
                ((none : Option String), "Date")].map (fun c => collapseWs c.2)) :: more) ∧
    (∀ (st : ListParserState) (attrs : List (String × String)),
       st.inHeader = true → listStep id st (.startTag "a" attrs) = .ok st) :=
  c8_header_row id [(some "/x", "Project Title"), (none, "Date")] []
    [["Link", "Project Title", "Date"]] none (by decide) (by rfl)

/-- C9, witness: the two-run equality at a concrete one-row document. -/
theorem c9_witness :
    (listFeed id true
        [HtmlEvent.startTag "tr" [], HtmlEvent.startTag "td" [],
         HtmlEvent.text "x", HtmlEvent.endTag "td", HtmlEvent.endTag "tr"]).map
      (fun r => r.1)
      = (listFeed id false
          [HtmlEvent.startTag "tr" [], HtmlEvent.startTag "td" [],
           HtmlEvent.text "x", HtmlEvent.endTag "td", HtmlEvent.endTag "tr"]).map
        (fun r => r.1) :=
  c9_sink_independent id
    [HtmlEvent.startTag "tr" [], HtmlEvent.startTag "td" [],
     HtmlEvent.text "x", HtmlEvent.endTag "td", HtmlEvent.endTag "tr"]
